import Mathlib

/-
Shallow embedding of the terracotta pattern compiler/matcher
(src/terracotta/scripts/click_utils.py, class RasterPattern), the ingestion
orchestrator (src/terracotta/scripts/ingest.py, function ingest) and the
metadata key parsing (src/terracotta/api/metadata.py, function get_metadata).

Modelling conventions:
* Strings are lists of characters (`Str`); character classes are modelled at
  ASCII precision (Python's `re` is Unicode, but every construct used by the
  source is exercised here on ASCII data): Python's word class matches
  letters, digits and the underscore, and the value class of a capture group
  is the alphanumeric class.
* A template is taken after `string.Formatter().parse`: a list of segments,
  each a literal prefix paired with an optional placeholder name (`none` for
  plain literal text, `some []` for the unnamed placeholder, `some name` for
  a named one).  `os.path.realpath` on the template happens before parsing
  and is outside the model.
* The filesystem is the list of canonical absolute paths of the existing
  files, so `os.path.realpath` on glob results is the identity.  Glob
  matching is modelled with a single wildcard token, a star that matches any
  run of characters other than the path separator; the dotfile special case
  of `glob.glob` is not modelled (no input below exercises it).
* The regular expressions built by the source have the restricted shape
  literal / lazy-any (.*?) / greedy alphanumeric capture group / backreference,
  and `re.match` anchors at the start only; `reMatch` implements Python's
  backtracking order for exactly that shape (lazy tries the shortest
  extension first, greedy the longest) and returns the captures together with
  the number of characters consumed, so `group(0)` is the consumed prefix.
* The store driver is an external collaborator; it is modelled by its
  observable state (declared key names and the set of existing dataset keys)
  and `ingest` returns the sequence of insert operations it performs instead
  of mutating a database.  Progress display, metadata computation and the
  post-ingestion cache notification have no effect on these observables and
  are left out.
-/

abbrev Str := List Char

/-- Python word character (class of the regex token used at
click_utils.py:68): letter, digit or underscore. -/
def isWordChar (c : Char) : Bool := c.isAlphanum || c = '_'

/-- Character admitted inside a capture group, the class written
[^\W_] at click_utils.py:63: a word character that is not an underscore,
i.e. an alphanumeric character. -/
def isValChar (c : Char) : Bool := c.isAlphanum

/-- The check applied to each key name at click_utils.py:68,
re.match of the one-character word pattern against the name: it succeeds
exactly when the name is nonempty and its first character is a word
character. -/
def keyCheck : Str → Bool
  | [] => false
  | c :: _ => isWordChar c

/-- First successful result of applying f to the elements of a list in
order: the backtracking search order of the regex matcher. -/
def firstSome : List α → (α → Option β) → Option β
  | [], _ => none
  | a :: as, f =>
    match f a with
    | some b => some b
    | none => firstSome as f

/-- One insertion into a Python dict: an existing binding of the key is
overwritten in place, a new key is appended at the end. -/
def dictInsert [DecidableEq κ] (d : List (κ × ν)) (k : κ) (v : ν) : List (κ × ν) :=
  if d.any (fun p => decide (p.1 = k)) then
    d.map (fun p => if p.1 = k then (k, v) else p)
  else d ++ [(k, v)]

/-- Building a Python dict from a list of bindings in order. -/
def dictOfList [DecidableEq κ] (l : List (κ × ν)) : List (κ × ν) :=
  l.foldl (fun d kv => dictInsert d kv.1 kv.2) []

/-- Index of the first occurrence of an element, list.index of Python. -/
def idxOf [DecidableEq α] : List α → α → Nat
  | [], _ => 0
  | k :: ks, n => if k = n then 0 else idxOf ks n + 1

/-- Tokens of the regular expressions assembled at click_utils.py:50-63:
an escaped literal, the lazy wildcard .*? of an unnamed placeholder, the
greedy alphanumeric capture group of a new named placeholder, and the
backreference of a repeated name (1-indexed group number). -/
inductive RTok where
  | lit : Str → RTok
  | lazyAny : RTok
  | grp : RTok
  | backref : Nat → RTok
deriving DecidableEq

/-- Recognizer of the capture-group token. -/
def isGrpTok : RTok → Bool
  | RTok.grp => true
  | _ => false

/-- Number of capture groups of a regex. -/
def countGrp (r : List RTok) : Nat := (r.filter isGrpTok).length

/-- Python re.match of a regex of the restricted shape above against a
string, anchored at the start only.  Returns the list of captured group
values in group order together with the number of characters consumed
(group 0 is the consumed prefix of the string).  Backtracking follows
Python's preference order: a lazy wildcard tries the shortest extension
first, a greedy group the longest. -/
def reMatch : List RTok → List Str → Str → Option (List Str × Nat)
  | [], caps, _ => some (caps, 0)
  | RTok.lit l :: rest, caps, s =>
    if l.isPrefixOf s then
      (reMatch rest caps (s.drop l.length)).map (fun r => (r.1, l.length + r.2))
    else none
  | RTok.lazyAny :: rest, caps, s =>
    firstSome (List.range (s.length + 1))
      (fun k => (reMatch rest caps (s.drop k)).map (fun r => (r.1, k + r.2)))
  | RTok.grp :: rest, caps, s =>
    let m := (s.takeWhile isValChar).length
    firstSome ((List.range m).map (fun i => m - i))
      (fun k => (reMatch rest (caps ++ [s.take k]) (s.drop k)).map (fun r => (r.1, k + r.2)))
  | RTok.backref n :: rest, caps, s =>
    match caps.get? (n - 1) with
    | none => none
    | some c =>
      if c.isPrefixOf s then
        (reMatch rest caps (s.drop c.length)).map (fun r => (r.1, c.length + r.2))
      else none

/-- re.match applied to one glob candidate as at click_utils.py:73 and the
projection used at lines 78 and 82: the captured groups and group(0), the
consumed prefix of the candidate. -/
def matchOne (r : List RTok) (c : Str) : Option (List Str × Str) :=
  (reMatch r [] c).map (fun x => (x.1, c.take x.2))

/-- Glob matching of the patterns assembled at click_utils.py:51,55: literal
characters plus the star wildcard, which matches any run of characters not
containing the path separator. -/
def globMatch : List Char → List Char → Bool
  | [], s => s.isEmpty
  | p :: ps, s =>
    if p = '*' then
      let m := (s.takeWhile (fun c => decide (c ≠ '/'))).length
      (List.range (m + 1)).any (fun k => globMatch ps (s.drop k))
    else
      match s with
      | [] => false
      | c :: rest => decide (p = c) && globMatch ps rest

/-- Result of compiling a template: ordered key names, glob pattern, regex
pattern. -/
structure Compiled where
  keys : List Str
  glob : Str
  regex : List RTok
deriving DecidableEq

/-- The compilation loop of click_utils.py:50-63 over the parsed template
segments, threading the accumulated key list, glob pattern and regex. -/
def compileSegs : List (Str × Option Str) → List Str → Str → List RTok →
    List Str × Str × List RTok
  | [], keys, g, r => (keys, g, r)
  | (before, fname) :: rest, keys, g, r =>
    let g1 := g ++ before
    let r1 := r ++ [RTok.lit before]
    match fname with
    | none => compileSegs rest keys g1 r1
    | some name =>
      let g2 := g1 ++ ['*']
      if name = [] then
        compileSegs rest keys g2 (r1 ++ [RTok.lazyAny])
      else if name ∈ keys then
        compileSegs rest keys g2 (r1 ++ [RTok.backref (idxOf keys name + 1)])
      else
        compileSegs rest (keys ++ [name]) g2 (r1 ++ [RTok.grp])

/-- Template compilation, click_utils.py:47-69: assemble keys, glob and
regex, then fail when no placeholder was found, then fail when some key
name does not pass the word-character check. -/
def compilePattern (segs : List (Str × Option Str)) : Except String Compiled :=
  if (compileSegs segs [] [] []).1 = [] then
    Except.error "Pattern must contain at least one placeholder"
  else if (compileSegs segs [] [] []).1.all keyCheck then
    Except.ok ⟨(compileSegs segs [] [] []).1, (compileSegs segs [] [] []).2.1,
      (compileSegs segs [] [] []).2.2⟩
  else Except.error "Key names must be alphanumeric"

/-- A catalog: the ordered key names and the mapping from key tuple to
path, in insertion order. -/
structure Catalog where
  keys : List Str
  files : List (List Str × Str)
deriving DecidableEq

/-- Matching phase of click_utils.py:72-83 on the list of glob candidates:
apply the regex to every candidate, fail when none matches, fail when two
matches share a key tuple, otherwise build the dict from key tuple to
group(0). -/
def matchFiles (r : List RTok) (candidates : List Str) :
    Except String (List (List Str × Str)) :=
  if candidates.filterMap (matchOne r) = [] then
    Except.error "Given pattern matches no files"
  else if ((candidates.filterMap (matchOne r)).map Prod.fst).dedup.length
      = ((candidates.filterMap (matchOne r)).map Prod.fst).length then
    Except.ok (dictOfList (candidates.filterMap (matchOne r)))
  else Except.error "Pattern leads to duplicate keys"

/-- RasterPattern.convert, click_utils.py:38-83, on a template (given as
parsed segments) and a filesystem (the list of canonical paths of the
existing files): compile, enumerate the glob candidates, match. -/
def convert (segs : List (Str × Option Str)) (fs : List Str) :
    Except String Catalog :=
  match compilePattern segs with
  | Except.error e => Except.error e
  | Except.ok c =>
    match matchFiles c.regex (fs.filter (globMatch c.glob)) with
    | Except.error e => Except.error e
    | Except.ok files => Except.ok ⟨c.keys, files⟩

/-- push_to_last of ingest.py:95-96: drop the element at the given index and
append it at the end.  The source indexes the sequence directly, so it is
only ever applied with the index in range. -/
def pushToLast (seq : List α) (index : Nat) : List α :=
  seq.take index ++ seq.drop (index + 1) ++ (seq.drop index).take 1

/-- The RGB key promotion of ingest.py:88-99 as a transformation of a
catalog: fail when the requested key is absent, otherwise move it to the
last position of the key list and re-key the mapping by the same
permutation of every tuple. -/
def promoteKey (cat : Catalog) (k : Str) : Except String Catalog :=
  if k ∈ cat.keys then
    Except.ok ⟨pushToLast cat.keys (idxOf cat.keys k),
      dictOfList (cat.files.map (fun kv =>
        (pushToLast kv.1 (idxOf cat.keys k), kv.2)))⟩
  else Except.error "RGB key not found in raster pattern"

/-- The skip-existing filter of ingest.py:105-109: keep the entries whose
key tuple is not among the datasets already present in the store. -/
def filterExisting (cat : Catalog) (existing : List (List Str)) : Catalog :=
  ⟨cat.keys, cat.files.filter (fun kv => decide (kv.1 ∉ existing))⟩

/-- The age filter of ingest.py:124-127: keep the entries whose file
modification time is strictly greater than the cutoff time. -/
def filterAge (cat : Catalog) (cutoff : Int) (mtime : Str → Int) : Catalog :=
  ⟨cat.keys, cat.files.filter (fun kv => decide (cutoff < mtime kv.2))⟩

/-- Observable state of the store driver: its declared key names and the
keys of the datasets it already holds. -/
structure Store where
  keyNames : List Str
  datasets : List (List Str)

/-- Observable outcome of one ingest invocation: the exception raised (if
any), whether the incompatible-key-names message was echoed, and the
sequence of insert operations performed against the driver, in order. -/
structure IngestResult where
  badParam : Option String
  schemaErrorEchoed : Bool
  inserts : List (List Str × Str)
deriving DecidableEq

/-- ingest.py:101-134 after the RGB section: resolve the driver's key names
(a missing output file is created with the catalog's keys), apply the
skip-existing filter, compare the key names and echo the incompatibility
message on mismatch — the source constructs click.Abort() at line 116
without raising it, so execution continues — apply the age filter, and
insert every remaining entry in order. -/
def ingestRest (keys : List Str) (files : List (List Str × Str))
    (outputFileExists : Bool) (store : Store) (skipExisting : Bool)
    (cutoff : Option Int) (mtime : Str → Int) : IngestResult :=
  let keyNames := if outputFileExists then store.keyNames else keys
  let files1 := if skipExisting then
      (filterExisting ⟨keys, files⟩ store.datasets).files
    else files
  let echoed := decide (keys ≠ keyNames)
  let files2 := match cutoff with
    | none => files1
    | some c => (filterAge ⟨keys, files1⟩ c mtime).files
  ⟨none, echoed, files2⟩

/-- The ingest command, ingest.py:60-134, on the observable state: the
pattern's keys and files, whether the output file already exists, the
store's state, the skip-existing flag, the optional RGB key and the
optional age cutoff (already resolved to an absolute time), with the file
modification times supplied as a function.  The metadata toggle, progress
display and cache notification do not affect these observables and are
omitted. -/
def ingest (keys0 : List Str) (files0 : List (List Str × Str))
    (outputFileExists : Bool) (store : Store) (skipExisting : Bool)
    (rgbKey : Option Str) (cutoff : Option Int) (mtime : Str → Int) :
    IngestResult :=
  match rgbKey with
  | none => ingestRest keys0 files0 outputFileExists store skipExisting cutoff mtime
  | some k =>
    match promoteKey ⟨keys0, files0⟩ k with
    | Except.error e => ⟨some e, false, []⟩
    | Except.ok cat =>
      ingestRest cat.keys cat.files outputFileExists store skipExisting cutoff mtime

/-- str.split of Python with separator the path separator: splits at every
occurrence, keeping empty segments. -/
def splitSlash : Str → List Str
  | [] => [[]]
  | c :: rest =>
    if c = '/' then [] :: splitSlash rest
    else
      match splitSlash rest with
      | [] => [[c]]
      | s :: ss => (c :: s) :: ss

/-- Key-path parsing of the metadata handler, metadata.py:49: split the
path on the separator and drop the empty segments. -/
def parsedKeys (s : Str) : List Str :=
  (splitSlash s).filter (fun k => decide (k ≠ []))

/- ### Helper lemmas -/

lemma firstSome_eq_some {f : α → Option β} {b : β} :
    ∀ {l : List α}, firstSome l f = some b → ∃ a ∈ l, f a = some b := by
  intro l
  induction l with
  | nil => intro h; simp [firstSome] at h
  | cons a as ih =>
    intro h
    rw [firstSome] at h
    cases hfa : f a with
    | some c =>
      rw [hfa] at h
      exact ⟨a, List.mem_cons_self a as, hfa.trans h⟩
    | none =>
      rw [hfa] at h
      obtain ⟨x, hx, hfx⟩ := ih h
      exact ⟨x, List.mem_cons_of_mem a hx, hfx⟩

lemma countGrp_append (r r' : List RTok) :
    countGrp (r ++ r') = countGrp r + countGrp r' := by
  simp [countGrp, List.filter_append]

lemma reMatch_length :
    ∀ (toks : List RTok) (caps : List Str) (s : Str) (res : List Str × Nat),
      reMatch toks caps s = some res → res.1.length = caps.length + countGrp toks := by
  intro toks
  induction toks with
  | nil =>
    intro caps s res h
    rw [reMatch] at h
    cases h
    simp [countGrp]
  | cons t rest ih =>
    intro caps s res h
    have hgc : ∀ t0, isGrpTok t0 = false → countGrp (t0 :: rest) = countGrp rest := by
      intro t0 ht0; simp [countGrp, List.filter_cons, ht0]
    cases t with
    | lit l =>
      rw [reMatch] at h
      split at h
      · rw [Option.map_eq_some'] at h
        obtain ⟨a, ha, hb⟩ := h
        subst hb
        have hlen := ih caps _ a ha
        rw [hgc (RTok.lit l) rfl]
        simpa using hlen
      · cases h
    | lazyAny =>
      rw [reMatch] at h
      obtain ⟨k, _, hsome⟩ := firstSome_eq_some h
      rw [Option.map_eq_some'] at hsome
      obtain ⟨a, ha, hb⟩ := hsome
      subst hb
      have hlen := ih caps _ a ha
      rw [hgc RTok.lazyAny rfl]
      simpa using hlen
    | grp =>
      rw [reMatch] at h
      obtain ⟨k, _, hsome⟩ := firstSome_eq_some h
      rw [Option.map_eq_some'] at hsome
      obtain ⟨a, ha, hb⟩ := hsome
      subst hb
      have hlen := ih _ _ a ha
      have hc : countGrp (RTok.grp :: rest) = countGrp rest + 1 := by
        simp [countGrp, List.filter_cons, isGrpTok]
      rw [hc]
      simp only [List.length_append, List.length_cons, List.length_nil] at hlen
      simp only [Prod.fst]
      omega
    | backref n =>
      rw [reMatch] at h
      split at h
      · cases h
      · split at h
        · rw [Option.map_eq_some'] at h
          obtain ⟨a, ha, hb⟩ := h
          subst hb
          have hlen := ih caps _ a ha
          rw [hgc (RTok.backref n) rfl]
          simpa using hlen
        · cases h

lemma dedup_length_eq_iff [DecidableEq β] (l : List β) :
    l.dedup.length = l.length ↔ l.Nodup := by
  constructor
  · intro h
    rw [← List.dedup_eq_self]
    exact (List.dedup_sublist l).eq_of_length h
  · intro h
    rw [List.dedup_eq_self.2 h]

lemma dictInsert_of_not_mem [DecidableEq κ] (d : List (κ × ν)) (k : κ) (v : ν)
    (h : ∀ p ∈ d, p.1 ≠ k) : dictInsert d k v = d ++ [(k, v)] := by
  have hfalse : d.any (fun p => decide (p.1 = k)) = false := by
    simp only [List.any_eq_false, decide_eq_true_eq]
    exact h
  simp [dictInsert, hfalse]

lemma dictOfList_acc [DecidableEq κ] :
    ∀ (l d : List (κ × ν)), (((d ++ l).map Prod.fst).Nodup) →
      l.foldl (fun d0 kv => dictInsert d0 kv.1 kv.2) d = d ++ l := by
  intro l
  induction l with
  | nil => intro d _; simp
  | cons kv t ih =>
    intro d h
    have hne : ∀ p ∈ d, p.1 ≠ kv.1 := by
      intro p hp heq
      rw [List.map_append, List.nodup_append] at h
      exact h.2.2 (List.mem_map.2 ⟨p, hp, heq⟩) (by simp)
    rw [List.foldl_cons, dictInsert_of_not_mem d kv.1 kv.2 hne, ih (d ++ [kv])
      (by simpa using h)]
    simp

lemma dictOfList_eq_self [DecidableEq κ] (l : List (κ × ν))
    (h : (l.map Prod.fst).Nodup) : dictOfList l = l := by
  have := dictOfList_acc l [] (by simpa using h)
  simpa [dictOfList] using this

lemma countGrp_nil : countGrp [] = 0 := rfl

lemma countGrp_singleton_lit (l : Str) : countGrp [RTok.lit l] = 0 := rfl

lemma countGrp_singleton_lazy : countGrp [RTok.lazyAny] = 0 := rfl

lemma countGrp_singleton_grp : countGrp [RTok.grp] = 1 := rfl

lemma countGrp_singleton_backref (n : Nat) : countGrp [RTok.backref n] = 0 := rfl

lemma compileSegs_countGrp :
    ∀ (segs : List (Str × Option Str)) (keys : List Str) (g : Str) (r : List RTok),
      countGrp (compileSegs segs keys g r).2.2 + keys.length
        = countGrp r + (compileSegs segs keys g r).1.length := by
  intro segs
  induction segs with
  | nil => intro keys g r; simp [compileSegs]
  | cons seg rest ih =>
    intro keys g r
    obtain ⟨before, fname⟩ := seg
    cases fname with
    | none =>
      rw [compileSegs]
      have := ih keys (g ++ before) (r ++ [RTok.lit before])
      rw [countGrp_append, countGrp_singleton_lit] at this
      omega
    | some name =>
      rw [compileSegs]
      by_cases h0 : name = []
      · rw [if_pos h0]
        have := ih keys ((g ++ before) ++ ['*'])
          ((r ++ [RTok.lit before]) ++ [RTok.lazyAny])
        rw [countGrp_append, countGrp_append, countGrp_singleton_lit,
          countGrp_singleton_lazy] at this
        omega
      · rw [if_neg h0]
        by_cases hmem : name ∈ keys
        · rw [if_pos hmem]
          have := ih keys ((g ++ before) ++ ['*'])
            ((r ++ [RTok.lit before]) ++ [RTok.backref (idxOf keys name + 1)])
          rw [countGrp_append, countGrp_append, countGrp_singleton_lit,
            countGrp_singleton_backref] at this
          omega
        · rw [if_neg hmem]
          have := ih (keys ++ [name]) ((g ++ before) ++ ['*'])
            ((r ++ [RTok.lit before]) ++ [RTok.grp])
          rw [countGrp_append, countGrp_append, countGrp_singleton_lit,
            countGrp_singleton_grp] at this
          simp only [List.length_append, List.length_cons, List.length_nil] at this
          omega

lemma compilePattern_ok (segs : List (Str × Option Str)) (cmp : Compiled)
    (h : compilePattern segs = Except.ok cmp) :
    cmp.keys = (compileSegs segs [] [] []).1 ∧
    cmp.glob = (compileSegs segs [] [] []).2.1 ∧
    cmp.regex = (compileSegs segs [] [] []).2.2 ∧
    (compileSegs segs [] [] []).1 ≠ [] ∧
    (compileSegs segs [] [] []).1.all keyCheck = true := by
  unfold compilePattern at h
  split at h
  · cases h
  · rename_i hne
    split at h
    · rename_i hall
      cases h
      exact ⟨rfl, rfl, rfl, hne, hall⟩
    · cases h

lemma compilePattern_keys_countGrp (segs : List (Str × Option Str)) (cmp : Compiled)
    (h : compilePattern segs = Except.ok cmp) :
    countGrp cmp.regex = cmp.keys.length := by
  obtain ⟨hk, _, hr, _, _⟩ := compilePattern_ok segs cmp h
  rw [hk, hr]
  have := compileSegs_countGrp segs [] [] []
  simpa [countGrp] using this

lemma matchFiles_ok (r : List RTok) (cands : List Str)
    (files : List (List Str × Str)) (h : matchFiles r cands = Except.ok files) :
    files = cands.filterMap (matchOne r) ∧
    ((cands.filterMap (matchOne r)).map Prod.fst).Nodup := by
  unfold matchFiles at h
  split at h
  · cases h
  · split at h
    · rename_i hded
      cases h
      have hnd : ((cands.filterMap (matchOne r)).map Prod.fst).Nodup :=
        (dedup_length_eq_iff _).1 hded
      exact ⟨dictOfList_eq_self _ hnd, hnd⟩
    · cases h

lemma convert_ok (segs : List (Str × Option Str)) (fs : List Str) (cat : Catalog)
    (h : convert segs fs = Except.ok cat) :
    ∃ cmp, compilePattern segs = Except.ok cmp ∧ cat.keys = cmp.keys ∧
      cat.files = (fs.filter (globMatch cmp.glob)).filterMap (matchOne cmp.regex) ∧
      (((fs.filter (globMatch cmp.glob)).filterMap (matchOne cmp.regex)).map
        Prod.fst).Nodup := by
  unfold convert at h
  split at h
  · cases h
  · rename_i cmp hcmp
    split at h
    · cases h
    · rename_i files hfiles
      cases h
      obtain ⟨hf, hnd⟩ := matchFiles_ok _ _ _ hfiles
      exact ⟨cmp, hcmp, rfl, hf, hnd⟩

lemma idxOf_lt_length [DecidableEq α] {a : α} :
    ∀ {l : List α}, a ∈ l → idxOf l a < l.length := by
  intro l
  induction l with
  | nil => intro h; cases h
  | cons k ks ih =>
    intro h
    rw [idxOf]
    by_cases hk : k = a
    · rw [if_pos hk]; simp
    · rw [if_neg hk]
      have : a ∈ ks := by
        rcases List.mem_cons.1 h with h1 | h1
        · exact absurd h1.symm hk
        · exact h1
      simpa using ih this

lemma get_idxOf [DecidableEq α] {a : α} :
    ∀ {l : List α} (h : a ∈ l), l.get ⟨idxOf l a, idxOf_lt_length h⟩ = a := by
  intro l
  induction l with
  | nil => intro h; cases h
  | cons k ks ih =>
    intro h
    by_cases hk : k = a
    · simp [idxOf, hk]
    · have hm : a ∈ ks := by
        rcases List.mem_cons.1 h with h1 | h1
        · exact absurd h1.symm hk
        · exact h1
      have h' := ih hm
      rw [List.get_eq_getElem] at h'
      simp [idxOf, hk, h']

lemma pushToLast_length (l : List α) (i : Nat) (h : i < l.length) :
    (pushToLast l i).length = l.length := by
  simp only [pushToLast, List.length_append, List.length_take, List.length_drop]
  omega

lemma pushToLast_eq (l : List α) (i : Nat) (h : i < l.length) :
    pushToLast l i = l.eraseIdx i ++ [l.get ⟨i, h⟩] := by
  have hdrop : l.drop i = l.get ⟨i, h⟩ :: l.drop (i + 1) := by
    rw [List.get_eq_getElem]
    exact List.drop_eq_getElem_cons h
  have htake1 : (l.drop i).take 1 = [l.get ⟨i, h⟩] := by
    rw [hdrop, List.take_succ_cons, List.take_zero]
  rw [pushToLast, htake1, List.eraseIdx_eq_take_drop_succ, List.append_assoc]

lemma take_i_append_get_drop (l : List α) (i : Nat) (h : i < l.length) :
    l = l.take i ++ l.get ⟨i, h⟩ :: l.drop (i + 1) := by
  have hdrop : l.drop i = l.get ⟨i, h⟩ :: l.drop (i + 1) := by
    rw [List.get_eq_getElem]
    exact List.drop_eq_getElem_cons h
  conv_lhs => rw [← List.take_append_drop i l]
  rw [hdrop]

lemma pushToLast_inj (t1 t2 : List α) (i : Nat) (h1 : i < t1.length)
    (hlen : t1.length = t2.length) (h : pushToLast t1 i = pushToLast t2 i) :
    t1 = t2 := by
  have h2 : i < t2.length := hlen ▸ h1
  rw [pushToLast_eq t1 i h1, pushToLast_eq t2 i h2] at h
  have hel : t1.eraseIdx i ++ [t1.get ⟨i, h1⟩] = t2.eraseIdx i ++ [t2.get ⟨i, h2⟩] := h
  have herlen : (t1.eraseIdx i).length = (t2.eraseIdx i).length := by
    rw [List.length_eraseIdx, List.length_eraseIdx]
    simp [h1, h2, hlen]
  obtain ⟨her, hget⟩ := List.append_inj hel herlen
  have hget' : t1.get ⟨i, h1⟩ = t2.get ⟨i, h2⟩ := by
    have := List.head_eq_of_cons_eq hget
    exact this
  rw [List.eraseIdx_eq_take_drop_succ, List.eraseIdx_eq_take_drop_succ] at her
  have htakelen : (t1.take i).length = (t2.take i).length := by
    rw [List.length_take, List.length_take]
    omega
  obtain ⟨htake, hdrop⟩ := List.append_inj her htakelen
  rw [take_i_append_get_drop t1 i h1, take_i_append_get_drop t2 i h2,
    htake, hget', hdrop]

lemma one_le_countP_filterMap {F : α → Option β} {Q : β → Bool} {l : List α}
    {a : α} {xa : β} (ha : a ∈ l) (hfa : F a = some xa) (hqa : Q xa = true) :
    1 ≤ (l.filterMap F).countP Q := by
  have : ∃ b ∈ l.filterMap F, Q b := ⟨xa, List.mem_filterMap.2 ⟨a, ha, hfa⟩, hqa⟩
  have := List.countP_pos_iff.2 this
  omega

lemma two_le_countP_filterMap {F : α → Option β} {Q : β → Bool} :
    ∀ (l : List α) (a b : α) (xa xb : β), a ∈ l → b ∈ l → a ≠ b →
      F a = some xa → Q xa = true → F b = some xb → Q xb = true →
      2 ≤ (l.filterMap F).countP Q := by
  intro l
  induction l with
  | nil => intro a b xa xb ha; cases ha
  | cons c t ih =>
    intro a b xa xb ha hb hne hfa hqa hfb hqb
    rcases List.mem_cons.1 ha with rfl | hat
    · have hbt : b ∈ t := by
        rcases List.mem_cons.1 hb with h1 | h1
        · exact absurd h1.symm hne
        · exact h1
      rw [List.filterMap_cons_some hfa, List.countP_cons_of_pos Q _ hqa]
      have := one_le_countP_filterMap hbt hfb hqb
      omega
    · rcases List.mem_cons.1 hb with rfl | hbt
      · rw [List.filterMap_cons_some hfb, List.countP_cons_of_pos Q _ hqb]
        have := one_le_countP_filterMap hat hfa hqa
        omega
      · have h2 := ih a b xa xb hat hbt hne hfa hqa hfb hqb
        cases hc : F c with
        | none => rw [List.filterMap_cons_none hc]; exact h2
        | some y =>
          rw [List.filterMap_cons_some hc, List.countP_cons]
          omega

lemma countP_le_one_of_nodup [DecidableEq β] :
    ∀ {l : List β}, l.Nodup → ∀ (a : β),
      l.countP (fun x => decide (x = a)) ≤ 1 := by
  intro l
  induction l with
  | nil => intro _ a; simp
  | cons c t ih =>
    intro hn a
    rw [List.nodup_cons] at hn
    rw [List.countP_cons]
    by_cases hc : c = a
    · subst hc
      have hz : t.countP (fun x => decide (x = c)) = 0 := by
        rw [List.countP_eq_zero]
        intro x hx
        simp only [decide_eq_true_eq]
        intro hxc
        exact hn.1 (hxc ▸ hx)
      simp [hz]
    · have := ih hn.2 a
      simp [hc]
      omega

lemma not_nodup_of_two_le_countP [DecidableEq β] {l : List β} {a : β}
    (h : 2 ≤ l.countP (fun x => decide (x = a))) : ¬ l.Nodup := by
  intro hn
  have := countP_le_one_of_nodup hn a
  omega

lemma splitSlash_ne_nil : ∀ (s : Str), splitSlash s ≠ [] := by
  intro s
  cases s with
  | nil => simp [splitSlash]
  | cons c rest =>
    rw [splitSlash]
    by_cases hc : c = '/'
    · simp [hc]
    · rw [if_neg hc]
      cases h : splitSlash rest with
      | nil => simp
      | cons s0 ss => simp

lemma splitSlash_append_slash :
    ∀ (a r : Str), splitSlash (a ++ '/' :: r) = splitSlash a ++ splitSlash r := by
  intro a
  induction a with
  | nil =>
    intro r
    simp only [List.nil_append]
    rw [splitSlash]
    simp [splitSlash]
  | cons c t ih =>
    intro r
    by_cases hc : c = '/'
    · subst hc
      rw [List.cons_append, splitSlash, if_pos rfl]
      conv_rhs => rw [splitSlash, if_pos rfl]
      rw [ih r]
      simp
    · rw [List.cons_append, splitSlash, if_neg hc]
      conv_rhs => rw [splitSlash, if_neg hc]
      rw [ih r]
      cases h : splitSlash t with
      | nil => exact absurd h (splitSlash_ne_nil t)
      | cons s0 ss => simp

lemma parsedKeys_append_slash (a r : Str) :
    parsedKeys (a ++ '/' :: r) = parsedKeys a ++ parsedKeys r := by
  rw [parsedKeys, splitSlash_append_slash, List.filter_append]
  rfl

lemma matchFiles_dup (r : List RTok) (cands : List Str) (p1 p2 : Str)
    (caps : List Str) (x1 x2 : List Str × Str)
    (h1 : p1 ∈ cands) (h2 : p2 ∈ cands) (hne : p1 ≠ p2)
    (m1 : matchOne r p1 = some x1) (m2 : matchOne r p2 = some x2)
    (e1 : x1.1 = caps) (e2 : x2.1 = caps) :
    matchFiles r cands = Except.error "Pattern leads to duplicate keys" := by
  have hmem : x1 ∈ cands.filterMap (matchOne r) := List.mem_filterMap.2 ⟨p1, h1, m1⟩
  have hne1 : ¬ (cands.filterMap (matchOne r) = []) := by
    intro h0
    rw [h0] at hmem
    cases hmem
  have hmap : (cands.filterMap (matchOne r)).map Prod.fst
      = cands.filterMap (fun c => (matchOne r c).map Prod.fst) :=
    List.map_filterMap _ _ _
  have h2c : 2 ≤ ((cands.filterMap (matchOne r)).map Prod.fst).countP
      (fun x => decide (x = caps)) := by
    rw [hmap]
    refine two_le_countP_filterMap cands p1 p2 caps caps h1 h2 hne ?_ ?_ ?_ ?_
    · show (matchOne r p1).map Prod.fst = some caps
      rw [m1, Option.map_some', e1]
    · simp
    · show (matchOne r p2).map Prod.fst = some caps
      rw [m2, Option.map_some', e2]
    · simp
  have hnodup : ¬ ((cands.filterMap (matchOne r)).map Prod.fst).Nodup :=
    not_nodup_of_two_le_countP h2c
  have hded : ¬ (((cands.filterMap (matchOne r)).map Prod.fst).dedup.length
      = ((cands.filterMap (matchOne r)).map Prod.fst).length) := by
    intro hh
    exact hnodup ((dedup_length_eq_iff _).1 hh)
  unfold matchFiles
  rw [if_neg hne1, if_neg hded]

/- ### Claim theorems -/

/-- C1: the spec requires that when the catalog's key names differ from an
existing store's declared key names, ingestion aborts fatally before any
insert.  At the concrete input below (existing store with key names [b],
catalog keys [a]) the code echoes the incompatibility message but the
click.Abort() constructed at ingest.py:116 is never raised, so the run
continues and the entry is inserted anyway: the claimed abort does not
happen. -/
theorem C1_incompatible_keys_inserted_anyway :
    ingest ["a".toList] [(["x".toList], "/p".toList)] true
        (Store.mk ["b".toList] []) false none none (fun _ => 0)
      = IngestResult.mk none true [(["x".toList], "/p".toList)] ∧
    ["a".toList] ≠ (Store.mk ["b".toList] []).keyNames := ⟨rfl, by decide⟩

/-- C2 counterexample: the claim says a key name that is not alphanumeric
(for example one containing an underscore) makes compilation fail, yet the
template with single key name a_b compiles successfully, because the check
at click_utils.py:68 inspects only the first character and the word class
it uses accepts the underscore. -/
theorem C2_underscore_key_name_accepted :
    compilePattern [("/d/".toList, some "a_b".toList)]
      = Except.ok ⟨["a_b".toList], "/d/*".toList,
          [RTok.lit "/d/".toList, RTok.grp]⟩ ∧
    "a_b".toList.all Char.isAlphanum = false := ⟨rfl, by decide⟩

/-- C2 amended: compilation fails with the alphanumeric key-name error
exactly when some extracted key name fails the first-character word check;
only the first character is inspected, and the word class includes the
underscore, so names that are non-alphanumeric only past the first
character are accepted. -/
theorem C2_keycheck_first_char_only (segs : List (Str × Option Str))
    (hne : (compileSegs segs [] [] []).1 ≠ []) :
    (compilePattern segs = Except.error "Key names must be alphanumeric" ↔
      ¬ ((compileSegs segs [] [] []).1.all keyCheck = true)) ∧
    (∀ c cs, keyCheck (c :: cs) = isWordChar c) ∧ keyCheck [] = false := by
  refine ⟨?_, fun c cs => rfl, rfl⟩
  unfold compilePattern
  rw [if_neg hne]
  by_cases hall : (compileSegs segs [] [] []).1.all keyCheck = true
  · rw [if_pos hall]
    constructor
    · intro h
      cases h
    · intro h
      exact absurd hall h
  · rw [if_neg hall]
    constructor
    · intro _
      exact hall
    · intro _
      rfl

/-- C2 amended, witness: the a_b template instantiates the amended claim;
its compilation does not produce the alphanumeric error because every key
name passes the first-character check. -/
theorem C2_keycheck_witness :
    (compilePattern [("/d/".toList, some "a_b".toList)]
        = Except.error "Key names must be alphanumeric" ↔
      ¬ (((compileSegs [("/d/".toList, some "a_b".toList)] [] [] []).1.all
          keyCheck) = true)) ∧
    (∀ c cs, keyCheck (c :: cs) = isWordChar c) ∧ keyCheck [] = false :=
  C2_keycheck_first_char_only [("/d/".toList, some "a_b".toList)] (by decide)

/-- C3 counterexample: with the template /d/{name}, the empty filesystem
(zero glob hits) and a filesystem whose single file with basename _x passes the glob
but fails the regex (a glob candidate exists, zero regex matches) produce
the identical error value, so the two causes are not distinguishable by the
caller as the claim requires. -/
theorem C3_same_error_for_both_causes :
    convert [("/d/".toList, some "name".toList)] []
      = Except.error "Given pattern matches no files" ∧
    convert [("/d/".toList, some "name".toList)] ["/d/_x".toList]
      = Except.error "Given pattern matches no files" ∧
    globMatch "/d/*".toList "/d/_x".toList = true ∧
    matchOne [RTok.lit "/d/".toList, RTok.grp] "/d/_x".toList = none :=
  ⟨rfl, rfl, rfl, rfl⟩

/-- C3 amended: matching fails with the single error message of
click_utils.py:76 whenever zero candidates match the regex, including the
case in which the glob itself produced zero candidates; both causes share
this one error. -/
theorem C3_no_match_single_error (r : List RTok) (cands : List Str)
    (h : ∀ c ∈ cands, matchOne r c = none) :
    matchFiles r cands = Except.error "Given pattern matches no files" := by
  have hnil : cands.filterMap (matchOne r) = [] := List.filterMap_eq_nil_iff.2 h
  unfold matchFiles
  rw [if_pos hnil]

/-- C3 amended, witness at a concrete regex and candidate list on which no
candidate matches. -/
theorem C3_no_match_witness :
    matchFiles [RTok.lit "/x".toList] ["a".toList]
      = Except.error "Given pattern matches no files" :=
  C3_no_match_single_error [RTok.lit "/x".toList] ["a".toList] (by decide)

/-- C4 counterexample: the file /d/ab.x satisfies the derived glob and the
derived regex of the template /d/{name}, but because re.match is not
anchored at the end, the produced catalog maps the key tuple (ab) to
/d/ab — group(0) of the match, a proper prefix of the file's canonicalized
path — and not to the file's path itself as the claim requires. -/
theorem C4_group0_proper_prefix :
    convert [("/d/".toList, some "name".toList)] ["/d/ab.x".toList]
      = Except.ok ⟨["name".toList], [(["ab".toList], "/d/ab".toList)]⟩ ∧
    globMatch "/d/*".toList "/d/ab.x".toList = true ∧
    (reMatch [RTok.lit "/d/".toList, RTok.grp] [] "/d/ab.x".toList).isSome
      = true ∧
    "/d/ab".toList ≠ "/d/ab.x".toList ∧
    "/d/ab".toList <+: "/d/ab.x".toList :=
  ⟨rfl, rfl, rfl, by decide, ⟨".x".toList, by decide⟩⟩

/-- C4 amended: every entry of a produced catalog comes from a filesystem
file that satisfies the derived glob and the derived regex; its key tuple
is the list of captured group values of the regex match on that file, and
its path is the prefix of the file's canonicalized path consumed by the
match — possibly a proper prefix of the file path. -/
theorem C4_catalog_entries_from_matches (segs : List (Str × Option Str))
    (fs : List Str) (cat : Catalog) (h : convert segs fs = Except.ok cat) :
    ∀ kv ∈ cat.files, ∃ f ∈ fs, ∃ cmp, compilePattern segs = Except.ok cmp ∧
      globMatch cmp.glob f = true ∧
      ∃ n, reMatch cmp.regex [] f = some (kv.1, n) ∧ kv.2 = f.take n ∧
        kv.2 <+: f := by
  intro kv hkv
  obtain ⟨cmp, hcmp, hkeys, hfiles, hnd⟩ := convert_ok segs fs cat h
  rw [hfiles] at hkv
  obtain ⟨f, hf, hm⟩ := List.mem_filterMap.1 hkv
  obtain ⟨hfs, hglob⟩ := List.mem_filter.1 hf
  refine ⟨f, hfs, cmp, hcmp, hglob, ?_⟩
  unfold matchOne at hm
  rw [Option.map_eq_some'] at hm
  obtain ⟨x, hx, hkvx⟩ := hm
  subst hkvx
  exact ⟨x.2, by rw [hx], rfl, ⟨f.drop x.2, List.take_append_drop x.2 f⟩⟩

/-- C4 amended, witness: instantiation at the template /d/{name} and the
one-file filesystem /d/ab.x, for the catalog entry produced there. -/
theorem C4_catalog_entries_witness :
    ∃ f ∈ ["/d/ab.x".toList], ∃ cmp,
      compilePattern [("/d/".toList, some "name".toList)] = Except.ok cmp ∧
      globMatch cmp.glob f = true ∧
      ∃ n, reMatch cmp.regex [] f = some (["ab".toList], n) ∧
        "/d/ab".toList = f.take n ∧ "/d/ab".toList <+: f :=
  C4_catalog_entries_from_matches [("/d/".toList, some "name".toList)]
    ["/d/ab.x".toList] ⟨["name".toList], [(["ab".toList], "/d/ab".toList)]⟩
    rfl (["ab".toList], "/d/ab".toList) (by decide)

/-- C5: whenever two distinct files of the filesystem pass the glob and the
regex with the identical captured key tuple, matching fails with the fatal
duplicate-key error of click_utils.py:80 and no catalog is returned; file
content plays no role, as matching only ever inspects paths. -/
theorem C5_duplicate_key_tuples_fatal (segs : List (Str × Option Str))
    (fs : List Str) (cmp : Compiled) (p1 p2 : Str) (caps : List Str)
    (x1 x2 : List Str × Str)
    (hc : compilePattern segs = Except.ok cmp)
    (h1 : p1 ∈ fs) (h2 : p2 ∈ fs) (hne : p1 ≠ p2)
    (g1 : globMatch cmp.glob p1 = true) (g2 : globMatch cmp.glob p2 = true)
    (m1 : matchOne cmp.regex p1 = some x1) (m2 : matchOne cmp.regex p2 = some x2)
    (e1 : x1.1 = caps) (e2 : x2.1 = caps) :
    convert segs fs = Except.error "Pattern leads to duplicate keys" := by
  unfold convert
  rw [hc]
  show (match matchFiles cmp.regex (fs.filter (globMatch cmp.glob)) with
    | Except.error e => Except.error e
    | Except.ok files => Except.ok (Catalog.mk cmp.keys files))
      = Except.error "Pattern leads to duplicate keys"
  rw [matchFiles_dup cmp.regex (fs.filter (globMatch cmp.glob)) p1 p2 caps
    x1 x2 (List.mem_filter.2 ⟨h1, g1⟩) (List.mem_filter.2 ⟨h2, g2⟩) hne m1 m2
    e1 e2]

/-- C5 witness: the files /d/ab.x and /d/ab.y both reduce to the key tuple
(ab) under the template /d/{name}, and matching indeed reports the
duplicate-key error. -/
theorem C5_duplicate_witness :
    convert [("/d/".toList, some "name".toList)]
        ["/d/ab.x".toList, "/d/ab.y".toList]
      = Except.error "Pattern leads to duplicate keys" :=
  C5_duplicate_key_tuples_fatal [("/d/".toList, some "name".toList)]
    ["/d/ab.x".toList, "/d/ab.y".toList]
    ⟨["name".toList], "/d/*".toList, [RTok.lit "/d/".toList, RTok.grp]⟩
    "/d/ab.x".toList "/d/ab.y".toList ["ab".toList]
    (["ab".toList], "/d/ab".toList) (["ab".toList], "/d/ab".toList)
    rfl (by decide) (by decide) (by decide) rfl rfl rfl rfl rfl rfl

lemma promoted_combos_eq (files : List (List Str × Str)) (i : Nat) :
    (files.map (fun kv => (pushToLast kv.1 i, kv.2))).map Prod.fst
      = (files.map Prod.fst).map (fun t => pushToLast t i) := by
  rw [List.map_map, List.map_map]
  rfl

lemma promoted_combos_nodup (cat : Catalog) (k : Str) (hk : k ∈ cat.keys)
    (hlen : ∀ kv ∈ cat.files, kv.1.length = cat.keys.length)
    (hnd : (cat.files.map Prod.fst).Nodup) :
    ((cat.files.map (fun kv =>
        (pushToLast kv.1 (idxOf cat.keys k), kv.2))).map Prod.fst).Nodup := by
  rw [promoted_combos_eq]
  have hi : idxOf cat.keys k < cat.keys.length := idxOf_lt_length hk
  refine hnd.map_on ?_
  intro t1 ht1 t2 ht2 heq
  obtain ⟨kv1, hkv1, rfl⟩ := List.mem_map.1 ht1
  obtain ⟨kv2, hkv2, rfl⟩ := List.mem_map.1 ht2
  have hl1 : kv1.1.length = cat.keys.length := hlen kv1 hkv1
  have hl2 : kv2.1.length = cat.keys.length := hlen kv2 hkv2
  exact pushToLast_inj kv1.1 kv2.1 (idxOf cat.keys k) (hl1 ▸ hi)
    (hl1.trans hl2.symm) heq

lemma promoteKey_ok_eq (cat : Catalog) (k : Str) (hk : k ∈ cat.keys)
    (hlen : ∀ kv ∈ cat.files, kv.1.length = cat.keys.length)
    (hnd : (cat.files.map Prod.fst).Nodup) :
    promoteKey cat k = Except.ok
      ⟨pushToLast cat.keys (idxOf cat.keys k),
       cat.files.map (fun kv => (pushToLast kv.1 (idxOf cat.keys k), kv.2))⟩ := by
  unfold promoteKey
  rw [if_pos hk, dictOfList_eq_self _ (promoted_combos_nodup cat k hk hlen hnd)]

/-- C6: promoting key k via the reorderer fails when k is absent from the
key list, and otherwise returns the catalog whose key list is the original
with k removed from its position and appended last, and whose entries are
exactly the original pairs with every tuple permuted by the same
remove-and-append; the sequence of paths and the number of entries are
unchanged. -/
theorem C6_promote_moves_key_to_last (cat : Catalog) (k : Str)
    (hlen : ∀ kv ∈ cat.files, kv.1.length = cat.keys.length)
    (hnd : (cat.files.map Prod.fst).Nodup) :
    (k ∉ cat.keys → promoteKey cat k
        = Except.error "RGB key not found in raster pattern") ∧
    (k ∈ cat.keys → promoteKey cat k = Except.ok
        ⟨cat.keys.eraseIdx (idxOf cat.keys k) ++ [k],
         cat.files.map (fun kv => (pushToLast kv.1 (idxOf cat.keys k), kv.2))⟩ ∧
      (cat.files.map (fun kv =>
          (pushToLast kv.1 (idxOf cat.keys k), kv.2))).map Prod.snd
        = cat.files.map Prod.snd ∧
      (cat.files.map (fun kv =>
          (pushToLast kv.1 (idxOf cat.keys k), kv.2))).length
        = cat.files.length) := by
  constructor
  · intro hk
    unfold promoteKey
    rw [if_neg hk]
  · intro hk
    have hi : idxOf cat.keys k < cat.keys.length := idxOf_lt_length hk
    refine ⟨?_, ?_, by simp⟩
    · rw [promoteKey_ok_eq cat k hk hlen hnd,
        pushToLast_eq cat.keys (idxOf cat.keys k) hi, get_idxOf hk]
    · rw [List.map_map]
      rfl

/-- C6 witness: promoting the first key n of a concrete two-key catalog
moves it behind b and permutes the single tuple accordingly. -/
theorem C6_promote_witness :
    promoteKey ⟨["n".toList, "b".toList], [(["x".toList, "r".toList],
        "/p".toList)]⟩ "n".toList
      = Except.ok ⟨["b".toList, "n".toList],
          [(["r".toList, "x".toList], "/p".toList)]⟩ := by
  have h := (C6_promote_moves_key_to_last
    ⟨["n".toList, "b".toList], [(["x".toList, "r".toList], "/p".toList)]⟩
    "n".toList (by decide) (by decide)).2 (by decide)
  exact h.1.trans (by rfl)

/-- C7: the existing-key filter applied with the empty snapshot returns the
input catalog unchanged, applied with a snapshot covering every key tuple
returns the empty catalog, and in general keeps exactly the entries whose
key tuple is not in the snapshot while leaving the key-name list
untouched. -/
theorem C7_filter_existing_spec (cat : Catalog) (ex : List (List Str)) :
    filterExisting cat [] = cat ∧
    ((∀ kv ∈ cat.files, kv.1 ∈ ex) → filterExisting cat ex = ⟨cat.keys, []⟩) ∧
    (filterExisting cat ex).keys = cat.keys ∧
    (∀ kv, kv ∈ (filterExisting cat ex).files ↔ kv ∈ cat.files ∧ kv.1 ∉ ex) := by
  refine ⟨?_, ?_, rfl, ?_⟩
  · cases cat with
    | mk ks fl => simp [filterExisting]
  · intro hall
    cases cat with
    | mk ks fl =>
      simp only [filterExisting, Catalog.mk.injEq, true_and]
      rw [List.filter_eq_nil_iff]
      intro kv hkv
      simp only [decide_eq_true_eq, Decidable.not_not]
      exact hall kv hkv
  · intro kv
    simp [filterExisting, List.mem_filter]

/-- C7 witness: concrete catalog filtered with the empty snapshot and with
a full snapshot. -/
theorem C7_filter_existing_witness :
    filterExisting ⟨["k".toList], [(["v".toList], "/p".toList)]⟩ []
      = ⟨["k".toList], [(["v".toList], "/p".toList)]⟩ ∧
    filterExisting ⟨["k".toList], [(["v".toList], "/p".toList)]⟩ [["v".toList]]
      = ⟨["k".toList], []⟩ := by
  obtain ⟨h1, h2, h3, h4⟩ := C7_filter_existing_spec
    ⟨["k".toList], [(["v".toList], "/p".toList)]⟩ [["v".toList]]
  exact ⟨h1, h2 (by decide)⟩

/-- C8: the age filter keeps exactly the entries whose modification time is
strictly greater than the cutoff; a cutoff strictly below every
modification time leaves the catalog unchanged, and a cutoff at or above
every modification time (including equality) empties it. -/
theorem C8_filter_age_spec (cat : Catalog) (c : Int) (mt : Str → Int) :
    (∀ kv, kv ∈ (filterAge cat c mt).files ↔ kv ∈ cat.files ∧ c < mt kv.2) ∧
    ((∀ kv ∈ cat.files, c < mt kv.2) → filterAge cat c mt = cat) ∧
    ((∀ kv ∈ cat.files, mt kv.2 ≤ c) → filterAge cat c mt = ⟨cat.keys, []⟩) := by
  refine ⟨?_, ?_, ?_⟩
  · intro kv
    simp [filterAge, List.mem_filter]
  · intro hall
    cases cat with
    | mk ks fl =>
      simp only [filterAge, Catalog.mk.injEq, true_and]
      rw [List.filter_eq_self]
      intro kv hkv
      simp only [decide_eq_true_eq]
      exact hall kv hkv
  · intro hall
    cases cat with
    | mk ks fl =>
      simp only [filterAge, Catalog.mk.injEq, true_and]
      rw [List.filter_eq_nil_iff]
      intro kv hkv
      simp only [decide_eq_true_eq, not_lt]
      exact hall kv hkv

/-- C8 witness: a concrete two-entry catalog with modification times 5 and
7 is unchanged under cutoff 4 and emptied under cutoff 7 (the entry whose
modification time equals the cutoff is excluded). -/
theorem C8_filter_age_witness :
    filterAge ⟨["k".toList], [(["v".toList], "/p".toList)]⟩ 4
        (fun _ => 5)
      = ⟨["k".toList], [(["v".toList], "/p".toList)]⟩ ∧
    filterAge ⟨["k".toList], [(["v".toList], "/p".toList)]⟩ 5
        (fun _ => 5)
      = ⟨["k".toList], []⟩ := by
  obtain ⟨_, h2, _⟩ := C8_filter_age_spec
    ⟨["k".toList], [(["v".toList], "/p".toList)]⟩ 4 (fun _ => 5)
  obtain ⟨_, _, h3⟩ := C8_filter_age_spec
    ⟨["k".toList], [(["v".toList], "/p".toList)]⟩ 5 (fun _ => 5)
  refine ⟨h2 ?_, h3 ?_⟩
  · intro kv _
    decide
  · intro kv _
    decide

/-- The catalog invariant stated by the spec: every key tuple has exactly
one value per key name, and no key tuple repeats. -/
def CatalogInv (cat : Catalog) : Prop :=
  (∀ kv ∈ cat.files, kv.1.length = cat.keys.length) ∧
  (cat.files.map Prod.fst).Nodup

/-- C9: every catalog produced at any stage of the pipeline satisfies the
invariant — after matching (convert), after reordering (promoteKey), and
after each of the two filters. -/
theorem C9_pipeline_invariants :
    (∀ segs fs cat, convert segs fs = Except.ok cat → CatalogInv cat) ∧
    (∀ cat k cat', CatalogInv cat → promoteKey cat k = Except.ok cat' →
      CatalogInv cat') ∧
    (∀ cat ex, CatalogInv cat → CatalogInv (filterExisting cat ex)) ∧
    (∀ cat c mt, CatalogInv cat → CatalogInv (filterAge cat c mt)) := by
  refine ⟨?_, ?_, ?_, ?_⟩
  · intro segs fs cat h
    obtain ⟨cmp, hcmp, hkeys, hfiles, hnd⟩ := convert_ok segs fs cat h
    constructor
    · intro kv hkv
      rw [hfiles] at hkv
      obtain ⟨f, _, hm⟩ := List.mem_filterMap.1 hkv
      unfold matchOne at hm
      rw [Option.map_eq_some'] at hm
      obtain ⟨x, hx, hkvx⟩ := hm
      subst hkvx
      have hl := reMatch_length cmp.regex [] f x hx
      simp only [List.length_nil, Nat.zero_add] at hl
      rw [hkeys, ← compilePattern_keys_countGrp segs cmp hcmp]
      exact hl
    · rw [hfiles]
      exact hnd
  · intro cat k cat' hinv hok
    by_cases hk : k ∈ cat.keys
    · rw [promoteKey_ok_eq cat k hk hinv.1 hinv.2] at hok
      cases hok
      have hi : idxOf cat.keys k < cat.keys.length := idxOf_lt_length hk
      constructor
      · intro kv hkv
        obtain ⟨kv0, hkv0, rfl⟩ := List.mem_map.1 hkv
        have hl0 : kv0.1.length = cat.keys.length := hinv.1 kv0 hkv0
        show (pushToLast kv0.1 (idxOf cat.keys k)).length
          = (pushToLast cat.keys (idxOf cat.keys k)).length
        rw [pushToLast_length kv0.1 _ (hl0 ▸ hi), pushToLast_length cat.keys _ hi,
          hl0]
      · exact promoted_combos_nodup cat k hk hinv.1 hinv.2
    · rw [promoteKey, if_neg hk] at hok
      cases hok
  · intro cat ex hinv
    constructor
    · intro kv hkv
      have := (List.mem_filter.1 hkv).1
      exact hinv.1 kv this
    · exact hinv.2.sublist ((List.filter_sublist cat.files).map Prod.fst)
  · intro cat c mt hinv
    constructor
    · intro kv hkv
      have := (List.mem_filter.1 hkv).1
      exact hinv.1 kv this
    · exact hinv.2.sublist ((List.filter_sublist cat.files).map Prod.fst)

/-- C9 witness: the invariant instances obtained by running each pipeline
stage on concrete data. -/
theorem C9_pipeline_witness :
    CatalogInv ⟨["name".toList], [(["ab".toList], "/d/ab".toList)]⟩ ∧
    CatalogInv ⟨["b".toList, "n".toList],
      [(["r".toList, "x".toList], "/p".toList)]⟩ ∧
    CatalogInv (filterExisting ⟨["k".toList], [(["v".toList], "/p".toList)]⟩
      [["v".toList]]) ∧
    CatalogInv (filterAge ⟨["k".toList], [(["v".toList], "/p".toList)]⟩ 4
      (fun _ => 5)) := by
  obtain ⟨h1, h2, h3, h4⟩ := C9_pipeline_invariants
  refine ⟨?_, ?_, ?_, ?_⟩
  · exact h1 [("/d/".toList, some "name".toList)] ["/d/ab.x".toList]
      ⟨["name".toList], [(["ab".toList], "/d/ab".toList)]⟩ rfl
  · exact h2 ⟨["n".toList, "b".toList], [(["x".toList, "r".toList],
        "/p".toList)]⟩ "n".toList
      ⟨["b".toList, "n".toList], [(["r".toList, "x".toList], "/p".toList)]⟩
      ⟨by decide, by decide⟩ (by rfl)
  · exact h3 ⟨["k".toList], [(["v".toList], "/p".toList)]⟩ [["v".toList]]
      ⟨by decide, by decide⟩
  · exact h4 ⟨["k".toList], [(["v".toList], "/p".toList)]⟩ 4 (fun _ => 5)
      ⟨by decide, by decide⟩

/-- C10: the metadata handler's key parsing splits the path on the
separator and drops empty segments, so parsing is compositional over a
separator and invariant under leading, trailing and repeated separators;
in particular the paths a//b/ and a/b parse to the same key list. -/
theorem C10_key_path_parsing (a b s : Str) :
    parsedKeys (a ++ '/' :: b) = parsedKeys a ++ parsedKeys b ∧
    parsedKeys ('/' :: s) = parsedKeys s ∧
    parsedKeys (s ++ ['/']) = parsedKeys s ∧
    parsedKeys (a ++ '/' :: '/' :: b) = parsedKeys (a ++ '/' :: b) ∧
    parsedKeys "a//b/".toList = parsedKeys "a/b".toList := by
  have hnil : parsedKeys [] = [] := by
    simp [parsedKeys, splitSlash]
  refine ⟨parsedKeys_append_slash a b, ?_, ?_, ?_, by rfl⟩
  · have := parsedKeys_append_slash [] s
    simpa [hnil] using this
  · have := parsedKeys_append_slash s []
    simpa [hnil] using this
  · rw [parsedKeys_append_slash a ('/' :: b), parsedKeys_append_slash a b]
    congr 1

/-- C10 witness: concrete paths differing only in leading, trailing and
repeated separators parse to the same key list. -/
theorem C10_key_path_witness :
    parsedKeys "/a//b/".toList = parsedKeys "a/b".toList ∧
    parsedKeys "a/b".toList = ["a".toList, "b".toList] := by
  obtain ⟨h1, h2, h3, h4, h5⟩ := C10_key_path_parsing "a".toList "b/".toList
    "a//b/".toList
  refine ⟨?_, by rfl⟩
  exact h2.trans (by rfl)
